import Mathlib

/-!
Shallow embedding of `src/number_game.py` (class `NumberGame`): the guess
editor `get_guess`, the round controller `play_round`, the raw keystroke
reader `get_key`, and the statistics display `show_stats`, together with
theorems checking the specification's claims about them.

Keystrokes are modelled as `Char` values, the keyboard as a finite list of
keystrokes, and the observable feedback (error messages, sounds) as an
ordered list of `Event`s.  Blocking reads that never receive a key are
modelled by returning `none`.
-/

namespace NumberGame

/-- Configuration fixed at construction: `min_num`, `max_num`, `max_attempts`
(defaults 1, 10, 3 in the source). -/
structure GameConfig where
  min_num : Int
  max_num : Int
  max_attempts : Nat
deriving DecidableEq, Repr

/-- The mutable statistics dictionary `self.stats = {'games': 0, 'wins': 0}`. -/
structure Stats where
  games : Nat
  wins : Nat
deriving DecidableEq, Repr

/-- Observable feedback emitted by `get_guess` and `play_round`: error
messages, the interruption message, and the win/lose/hint sounds (a hint
carries `too_low`, mirroring `play_sound('hint', guess < target)`). -/
inductive Event where
  | interrupted
  | validationError
  | rangeError
  | soundWin
  | hint (too_low : Bool)
  | soundLose
deriving DecidableEq, Repr

/-- Result of `get_guess`: the Python function returns either the string
`'quit'` or a parsed integer. -/
inductive GuessResult where
  | quit
  | accepted (n : Int)
deriving DecidableEq, Repr

/-- Outcome of processing one keystroke inside the `get_guess` loop: either
stay in the loop with an updated buffer (the local variable `guess`), or
return, in both cases emitting a list of feedback events. -/
inductive EditStep where
  | editing (buf : List Char) (events : List Event)
  | done (r : GuessResult) (events : List Event)
deriving DecidableEq, Repr

/-- Length of `str(n)` for a Python `int`: decimal digits, plus one for the
sign when negative. -/
def strLenInt (n : Int) : Nat :=
  if n < 0 then (Nat.toDigits 10 (-n).toNat).length + 1
  else (Nat.toDigits 10 n.toNat).length

/-- The buffer-length cap used in `get_guess`: `len(str(self.max_num))`. -/
def lenCap (cfg : GameConfig) : Nat :=
  strLenInt cfg.max_num

/-- Python `str.isdigit` on the buffer: nonempty and every character a digit. -/
def strIsdigit (s : List Char) : Bool :=
  !s.isEmpty && s.all Char.isDigit

/-- Python `int(...)` on an all-digit buffer. -/
def parseInt (s : List Char) : Int :=
  Int.ofNat (s.foldl (fun a c => a * 10 + (c.toNat - 48)) 0)

/-- One iteration of the `while True` loop body of `get_guess`, given the
current buffer `buf` (the local `guess`) and the keystroke `ch`, following
the source order: quit check, backspace, carriage-return submit
(empty / non-digit / out-of-range / accept), digit append under the length
cap, otherwise ignore. -/
def guessStep (cfg : GameConfig) (buf : List Char) (ch : Char) : EditStep :=
  if ch.toLower = 'x' then
    EditStep.done GuessResult.quit [Event.interrupted]
  else if (ch = '\x7f' ∨ ch = '\x08') ∧ buf ≠ [] then
    EditStep.editing buf.dropLast []
  else if ch = '\x0d' then
    if buf = [] then
      EditStep.editing buf []
    else if ¬ strIsdigit buf then
      EditStep.editing [] [Event.validationError]
    else
      if ¬ (cfg.min_num ≤ parseInt buf ∧ parseInt buf ≤ cfg.max_num) then
        EditStep.editing [] [Event.rangeError]
      else
        EditStep.done (GuessResult.accepted (parseInt buf)) []
  else if ch.isDigit ∧ buf.length < lenCap cfg then
    EditStep.editing (buf ++ [ch]) []
  else
    EditStep.editing buf []

/-- Result of running `get_guess` against a finite keystroke list: the
returned value (`none` when the keystrokes ran out while still editing), the
final buffer, the unconsumed keystrokes, and the emitted feedback. -/
structure GuessRun where
  result : Option GuessResult
  buf : List Char
  rest : List Char
  events : List Event
deriving DecidableEq, Repr

/-- The `get_guess` loop, driven by a finite list of keystrokes; the source
enters it with an empty buffer (`guess = ""`). -/
def get_guess (cfg : GameConfig) : List Char → List Char → GuessRun
  | buf, [] => ⟨none, buf, [], []⟩
  | buf, ch :: rest =>
    match guessStep cfg buf ch with
    | EditStep.editing buf' evs =>
      let r := get_guess cfg buf' rest
      ⟨r.result, r.buf, r.rest, evs ++ r.events⟩
    | EditStep.done res evs => ⟨some res, buf, rest, evs⟩

/-- The attempt loop of `play_round`, parametrised by the drawn `target` and
the remaining `attempts`.  Each iteration calls `get_guess` on the remaining
keystrokes with a fresh empty buffer.  Quit increments `games` and returns
the string `'quit'`; a correct guess plays the win sound, increments `wins`,
breaks out, and the code after the loop increments `games` and returns
`'continue'`; a wrong guess emits the hint (tagged with `guess < target`),
decrements `attempts`, and when they hit zero plays the lose sound before
the loop exits to the same `'continue'` return.  `none` models the program
blocking forever because the keystrokes ran out. -/
def playRoundLoop (cfg : GameConfig) (target : Int) :
    Nat → Stats → List Char → Option (String × Stats × List Event × List Char)
  | 0, stats, keys => some ("continue", ⟨stats.games + 1, stats.wins⟩, [], keys)
  | a + 1, stats, keys =>
    match get_guess cfg [] keys with
    | ⟨none, _, _, _⟩ => none
    | ⟨some GuessResult.quit, _, rest, gevs⟩ =>
      some ("quit", ⟨stats.games + 1, stats.wins⟩, gevs, rest)
    | ⟨some (GuessResult.accepted n), _, rest, gevs⟩ =>
      if n = target then
        some ("continue", ⟨stats.games + 1, stats.wins + 1⟩,
          gevs ++ [Event.soundWin], rest)
      else
        (playRoundLoop cfg target a stats rest).map fun r =>
          (r.1, r.2.1,
            (gevs ++ Event.hint (decide (n < target)) ::
              (if a = 0 then [Event.soundLose] else [])) ++ r.2.2.1,
            r.2.2.2)

/-- `play_round`: one round with the given drawn `target`, starting statistics
and keystroke list; returns the outcome string, the updated statistics, the
emitted feedback and the unconsumed keystrokes. -/
def play_round (cfg : GameConfig) (target : Int) (stats : Stats)
    (keys : List Char) : Option (String × Stats × List Event × List Char) :=
  playRoundLoop cfg target cfg.max_attempts stats keys

/-- Terminal mode: either the saved cooked settings (`termios.tcgetattr`)
or raw mode (`tty.setraw`). -/
inductive TermMode where
  | cooked (settings : Nat)
  | raw
deriving DecidableEq, Repr

/-- A terminal read failure (`termios.error` / `OSError`). -/
inductive IOErr where
  | readError
deriving DecidableEq, Repr

/-- State-and-exception computations over the terminal mode, modelling the
Python exception flow of `get_key`. -/
def TermM (α : Type) : Type := TermMode → Except IOErr α × TermMode

/-- Sequencing in `TermM`: an error propagates, skipping the rest. -/
def TermM.bind {α β : Type} (x : TermM α) (f : α → TermM β) : TermM β :=
  fun s =>
    match x s with
    | (Except.ok a, s') => f a s'
    | (Except.error e, s') => (Except.error e, s')

/-- Python `try ... finally`: the `fin` block runs whether the body returned
or raised, and the body's outcome is surfaced afterwards. -/
def tryFinally {α : Type} (body : TermM α) (fin : TermM Unit) : TermM α :=
  fun s =>
    match body s with
    | (Except.ok a, s') =>
      match fin s' with
      | (Except.ok _, s'') => (Except.ok a, s'')
      | (Except.error e, s'') => (Except.error e, s'')
    | (Except.error e, s') =>
      match fin s' with
      | (Except.ok _, s'') => (Except.error e, s'')
      | (Except.error e2, s'') => (Except.error e2, s'')

/-- `termios.tcgetattr(fd)`: query the current terminal mode. -/
def tcgetattr : TermM TermMode := fun s => (Except.ok s, s)

/-- `tty.setraw(fd)`: put the terminal into raw mode. -/
def setraw : TermM Unit := fun _ => (Except.ok (), TermMode.raw)

/-- `termios.tcsetattr(fd, TCSADRAIN, m)`: restore a saved mode. -/
def tcsetattr (m : TermMode) : TermM Unit := fun _ => (Except.ok (), m)

/-- `sys.stdin.read(1)`: the one-character read, whose outcome (a character,
or a raised error) is supplied as an oracle parameter. -/
def readOne (outcome : Except IOErr Char) : TermM Char :=
  fun s => (outcome, s)

/-- `get_key`: save the current settings, then inside `try` enter raw mode
and read one character, and in `finally` restore the saved settings. -/
def get_key (outcome : Except IOErr Char) : TermM Char :=
  TermM.bind tcgetattr fun old_settings =>
    tryFinally (TermM.bind setraw fun _ => readOne outcome)
      (tcsetattr old_settings)

/-- One line of `show_stats` output. -/
inductive StatLine where
  | header
  | gamesPlayed (n : Nat)
  | gamesWon (n : Nat)
  | winRate (r : ℚ)
  | goodbye
deriving DecidableEq, Repr

/-- `show_stats`: prints the games/wins counters and, only when
`self.stats['games'] > 0`, the win rate `(wins / games) * 100` (modelled in
exact rational arithmetic). -/
def show_stats (stats : Stats) : List StatLine :=
  [StatLine.header, StatLine.gamesPlayed stats.games,
    StatLine.gamesWon stats.wins] ++
  (if stats.games > 0 then
    [StatLine.winRate ((stats.wins : ℚ) / (stats.games : ℚ) * 100)]
  else []) ++
  [StatLine.goodbye]

/-- The default configuration built by `main()`: `NumberGame()` with
`min_num=1, max_num=10, max_attempts=3`. -/
def defaultConfig : GameConfig := ⟨1, 10, 3⟩

/-- A keystroke step only returns an accepted value after the range check
`self.min_num <= num <= self.max_num` has passed. -/
theorem guessStep_done_accepted_range {cfg : GameConfig} {buf : List Char}
    {ch : Char} {n : Int} {evs : List Event}
    (h : guessStep cfg buf ch = EditStep.done (GuessResult.accepted n) evs) :
    cfg.min_num ≤ n ∧ n ≤ cfg.max_num := by
  unfold guessStep at h
  split at h
  · simp at h
  · split at h
    · simp at h
    · split at h
      · split at h
        · simp at h
        · split at h
          · simp at h
          · split at h
            · simp at h
            · rename_i hrange
              rw [not_not] at hrange
              simp only [EditStep.done.injEq, GuessResult.accepted.injEq] at h
              exact h.1 ▸ hrange
      · split at h
        · simp at h
        · simp at h

/-- A keystroke step that stays in the editing loop emits at most one
event: nothing, a validation error, or a range error. -/
theorem guessStep_editing_events {cfg : GameConfig} {buf : List Char}
    {ch : Char} {buf' : List Char} {evs : List Event}
    (h : guessStep cfg buf ch = EditStep.editing buf' evs) :
    evs = [] ∨ evs = [Event.validationError] ∨ evs = [Event.rangeError] := by
  unfold guessStep at h
  split at h
  · simp at h
  · split at h
    · simp only [EditStep.editing.injEq] at h
      exact Or.inl h.2.symm
    · split at h
      · split at h
        · simp only [EditStep.editing.injEq] at h
          exact Or.inl h.2.symm
        · split at h
          · simp only [EditStep.editing.injEq] at h
            exact Or.inr (Or.inl h.2.symm)
          · split at h
            · simp only [EditStep.editing.injEq] at h
              exact Or.inr (Or.inr h.2.symm)
            · simp at h
      · split at h
        · simp only [EditStep.editing.injEq] at h
          exact Or.inl h.2.symm
        · simp only [EditStep.editing.injEq] at h
          exact Or.inl h.2.symm

/-- A keystroke step that leaves the loop is either the quit return (with
the interruption message) or an accepted value (with no events). -/
theorem guessStep_done_events {cfg : GameConfig} {buf : List Char}
    {ch : Char} {res : GuessResult} {evs : List Event}
    (h : guessStep cfg buf ch = EditStep.done res evs) :
    (res = GuessResult.quit ∧ evs = [Event.interrupted]) ∨
    (∃ m, res = GuessResult.accepted m ∧ evs = []) := by
  unfold guessStep at h
  split at h
  · simp only [EditStep.done.injEq] at h
    exact Or.inl ⟨h.1.symm, h.2.symm⟩
  · split at h
    · simp at h
    · split at h
      · split at h
        · simp at h
        · split at h
          · simp at h
          · split at h
            · simp at h
            · simp only [EditStep.done.injEq] at h
              exact Or.inr ⟨parseInt buf, h.1.symm, h.2.symm⟩
      · split at h
        · simp at h
        · simp at h

/-- Induction form of the range guarantee: however far along the editor is,
an accepted return value lies in `[min_num, max_num]`. -/
theorem get_guess_accepted_range (cfg : GameConfig) {n : Int} :
    ∀ (keys buf : List Char),
      (get_guess cfg buf keys).result = some (GuessResult.accepted n) →
      cfg.min_num ≤ n ∧ n ≤ cfg.max_num := by
  intro keys
  induction keys with
  | nil => intro buf h; simp [get_guess] at h
  | cons ch rest ih =>
    intro buf h
    rw [get_guess] at h
    cases hstep : guessStep cfg buf ch with
    | editing buf' evs =>
      rw [hstep] at h
      exact ih buf' h
    | done res evs =>
      rw [hstep] at h
      simp only [Option.some.injEq] at h
      cases res with
      | quit => cases h
      | accepted m =>
        cases h
        exact guessStep_done_accepted_range hstep

/-- Every event the editor emits is a validation error, a range error, or
the interruption message; in particular no sound events come from it. -/
theorem get_guess_events_mem (cfg : GameConfig) :
    ∀ (keys buf : List Char) (e : Event),
      e ∈ (get_guess cfg buf keys).events →
      e = Event.validationError ∨ e = Event.rangeError ∨
        e = Event.interrupted := by
  intro keys
  induction keys with
  | nil => intro buf e h; simp [get_guess] at h
  | cons ch rest ih =>
    intro buf e h
    rw [get_guess] at h
    cases hstep : guessStep cfg buf ch with
    | editing buf' evs =>
      rw [hstep] at h
      simp only [List.mem_append] at h
      rcases h with h | h
      · rcases guessStep_editing_events hstep with rfl | rfl | rfl
        · simp at h
        · simp at h; exact Or.inl h
        · simp at h; exact Or.inr (Or.inl h)
      · exact ih buf' e h
    | done res evs =>
      rw [hstep] at h
      rcases guessStep_done_events hstep with ⟨_, rfl⟩ | ⟨m, _, rfl⟩
      · simp at h
        exact Or.inr (Or.inr h)
      · simp at h

/-- The interruption message appears among the editor's events exactly when
the editor returned the quit signal. -/
theorem get_guess_interrupted_iff (cfg : GameConfig) :
    ∀ (keys buf : List Char),
      Event.interrupted ∈ (get_guess cfg buf keys).events ↔
        (get_guess cfg buf keys).result = some GuessResult.quit := by
  intro keys
  induction keys with
  | nil => intro buf; simp [get_guess]
  | cons ch rest ih =>
    intro buf
    rw [get_guess]
    cases hstep : guessStep cfg buf ch with
    | editing buf' evs =>
      simp only [List.mem_append]
      constructor
      · intro h
        rcases h with h | h
        · rcases guessStep_editing_events hstep with rfl | rfl | rfl <;> simp at h
        · exact (ih buf').mp h
      · intro h
        exact Or.inr ((ih buf').mpr h)
    | done res evs =>
      rcases guessStep_done_events hstep with ⟨rfl, rfl⟩ | ⟨m, rfl, rfl⟩ <;> simp

/-- A completed attempt loop bumps `games` exactly once, and bumps `wins`
exactly when the win sound was triggered. -/
theorem playRoundLoop_stats (cfg : GameConfig) (target : Int) :
    ∀ (a : Nat) (stats : Stats) (keys : List Char) (out : String)
      (stats' : Stats) (evs : List Event) (rest : List Char),
      playRoundLoop cfg target a stats keys = some (out, stats', evs, rest) →
      stats'.games = stats.games + 1 ∧
      stats'.wins =
        (if Event.soundWin ∈ evs then stats.wins + 1 else stats.wins) := by
  intro a
  induction a with
  | zero =>
    intro stats keys out stats' evs rest h
    simp only [playRoundLoop, Option.some.injEq, Prod.mk.injEq] at h
    obtain ⟨-, h2, h3, -⟩ := h
    subst h2; subst h3
    simp
  | succ a ih =>
    intro stats keys out stats' evs rest h
    rw [playRoundLoop] at h
    cases hg : get_guess cfg [] keys with
    | mk result gbuf grest gevs =>
      rw [hg] at h
      have hevmem : ∀ e : Event, e ∈ gevs →
          e = Event.validationError ∨ e = Event.rangeError ∨
            e = Event.interrupted := by
        intro e he
        exact get_guess_events_mem cfg keys [] e (by rw [hg]; exact he)
      cases result with
      | none => simp at h
      | some res =>
        cases res with
        | quit =>
          dsimp only at h
          simp only [Option.some.injEq, Prod.mk.injEq] at h
          obtain ⟨-, h2, h3, -⟩ := h
          subst h2; subst h3
          have hw : Event.soundWin ∉ gevs := by
            intro hm
            rcases hevmem Event.soundWin hm with h' | h' | h' <;> cases h'
          simp [hw]
        | accepted n =>
          dsimp only at h
          by_cases hn : n = target
          · rw [if_pos hn] at h
            simp only [Option.some.injEq, Prod.mk.injEq] at h
            obtain ⟨-, h2, h3, -⟩ := h
            subst h2; subst h3
            simp
          · rw [if_neg hn] at h
            cases hrec : playRoundLoop cfg target a stats grest with
            | none => rw [hrec] at h; simp at h
            | some r =>
              rw [hrec] at h
              obtain ⟨ro, rs, revs, rrest⟩ := r
              simp only [Option.map_some', Option.some.injEq,
                Prod.mk.injEq] at h
              obtain ⟨-, h2, h3, -⟩ := h
              subst h2; subst h3
              obtain ⟨ihg, ihw⟩ :=
                ih stats grest ro rs revs rrest hrec
              refine ⟨ihg, ?_⟩
              have hpre : Event.soundWin ∉
                  (gevs ++ Event.hint (decide (n < target)) ::
                    (if a = 0 then [Event.soundLose] else [])) := by
                intro hm
                simp only [List.mem_append, List.mem_cons] at hm
                rcases hm with hm | hm | hm
                · rcases hevmem Event.soundWin hm with h' | h' | h' <;>
                    cases h'
                · cases hm
                · split at hm <;> simp at hm
              rw [ihw]
              simp only [List.mem_append, List.mem_cons]
              simp only [List.mem_append, List.mem_cons] at hpre
              push_neg at hpre
              obtain ⟨hp1, hp2, hp3⟩ := hpre
              simp [hp1, hp2, hp3]

/-- A completed attempt loop returns one of the two strings `'quit'` and
`'continue'`, and returns `'quit'` exactly when the editor was interrupted
by the quit sentinel. -/
theorem playRoundLoop_outcome (cfg : GameConfig) (target : Int) :
    ∀ (a : Nat) (stats : Stats) (keys : List Char) (out : String)
      (stats' : Stats) (evs : List Event) (rest : List Char),
      playRoundLoop cfg target a stats keys = some (out, stats', evs, rest) →
      (out = "quit" ∨ out = "continue") ∧
      (out = "quit" ↔ Event.interrupted ∈ evs) := by
  intro a
  induction a with
  | zero =>
    intro stats keys out stats' evs rest h
    simp only [playRoundLoop, Option.some.injEq, Prod.mk.injEq] at h
    obtain ⟨h1, -, h3, -⟩ := h
    subst h1; subst h3
    simp
  | succ a ih =>
    intro stats keys out stats' evs rest h
    rw [playRoundLoop] at h
    cases hg : get_guess cfg [] keys with
    | mk result gbuf grest gevs =>
      rw [hg] at h
      cases result with
      | none => simp at h
      | some res =>
        cases res with
        | quit =>
          dsimp only at h
          simp only [Option.some.injEq, Prod.mk.injEq] at h
          obtain ⟨h1, -, h3, -⟩ := h
          subst h1; subst h3
          have hq : Event.interrupted ∈ gevs := by
            have := (get_guess_interrupted_iff cfg keys []).mpr
              (by rw [hg])
            rw [hg] at this
            exact this
          simp [hq]
        | accepted n =>
          dsimp only at h
          have hnotq : Event.interrupted ∉ gevs := by
            intro hm
            have := (get_guess_interrupted_iff cfg keys []).mp
              (by rw [hg]; exact hm)
            rw [hg] at this
            cases this
          by_cases hn : n = target
          · rw [if_pos hn] at h
            simp only [Option.some.injEq, Prod.mk.injEq] at h
            obtain ⟨h1, -, h3, -⟩ := h
            subst h1; subst h3
            simp [hnotq]
          · rw [if_neg hn] at h
            cases hrec : playRoundLoop cfg target a stats grest with
            | none => rw [hrec] at h; simp at h
            | some r =>
              rw [hrec] at h
              obtain ⟨ro, rs, revs, rrest⟩ := r
              simp only [Option.map_some', Option.some.injEq,
                Prod.mk.injEq] at h
              obtain ⟨h1, -, h3, -⟩ := h
              subst h1; subst h3
              obtain ⟨ih1, ih2⟩ :=
                ih stats grest ro rs revs rrest hrec
              refine ⟨ih1, ?_⟩
              have hpre3 : Event.interrupted ∉
                  (if a = 0 then [Event.soundLose] else []) := by
                split <;> simp
              rw [ih2]
              simp [List.mem_append, List.mem_cons, hnotq, hpre3]

/-- A digit keystroke can never pass the case-insensitive quit test
`ch.lower() == 'x'`. -/
theorem toLower_ne_x_of_isDigit {ch : Char} (hd : ch.isDigit = true) :
    ch.toLower ≠ 'x' := by
  intro hx
  have h57 : ch.toNat ≤ 57 := by
    simp only [Char.isDigit, ge_iff_le, Bool.and_eq_true,
      decide_eq_true_eq] at hd
    exact hd.2
  simp only [Char.toLower] at hx
  split at hx
  · rename_i h
    omega
  · subst hx
    simp at hd

/-- A keystroke step that stays in the editing loop never grows the buffer
past the cap `len(str(max_num))`. -/
theorem guessStep_editing_buf_le {cfg : GameConfig} {buf : List Char}
    {ch : Char} {buf' : List Char} {evs : List Event}
    (hb : buf.length ≤ lenCap cfg)
    (h : guessStep cfg buf ch = EditStep.editing buf' evs) :
    buf'.length ≤ lenCap cfg := by
  unfold guessStep at h
  split at h
  · simp at h
  · split at h
    · simp only [EditStep.editing.injEq] at h
      rw [← h.1]
      have := List.length_dropLast buf
      omega
    · split at h
      · split at h
        · simp only [EditStep.editing.injEq] at h
          rw [← h.1]; exact hb
        · split at h
          · simp only [EditStep.editing.injEq] at h
            rw [← h.1]; simp
          · split at h
            · simp only [EditStep.editing.injEq] at h
              rw [← h.1]; simp
            · simp at h
      · split at h
        · rename_i hcond
          simp only [EditStep.editing.injEq] at h
          rw [← h.1]
          simp only [List.length_append, List.length_singleton]
          have := hcond.2
          omega
        · simp only [EditStep.editing.injEq] at h
          rw [← h.1]; exact hb

/-- Running the editor from any buffer within the cap keeps the buffer
within the cap. -/
theorem get_guess_buf_le (cfg : GameConfig) :
    ∀ (keys buf : List Char), buf.length ≤ lenCap cfg →
      (get_guess cfg buf keys).buf.length ≤ lenCap cfg := by
  intro keys
  induction keys with
  | nil => intro buf hb; simpa [get_guess] using hb
  | cons ch rest ih =>
    intro buf hb
    rw [get_guess]
    cases hstep : guessStep cfg buf ch with
    | editing buf' evs =>
      dsimp only
      exact ih buf' (guessStep_editing_buf_le hb hstep)
    | done res evs =>
      exact hb

/-- The buffer after one keystroke, while the editor keeps editing; at a
returning step the buffer local is about to be discarded. -/
def stepBuf (cfg : GameConfig) (buf : List Char) (ch : Char) : List Char :=
  match guessStep cfg buf ch with
  | EditStep.editing b _ => b
  | EditStep.done _ _ => []

/-- Claim C1: for every configuration with `min_num < max_num` and every
keystroke sequence, if `get_guess` (run from the empty buffer) returns an
accepted numeric guess `n` rather than the quit signal, then
`min_num ≤ n ≤ max_num`; it never returns an out-of-range number. -/
theorem claim1_accepted_guess_in_range (cfg : GameConfig)
    (keys : List Char) (n : Int)
    (hcfg : cfg.min_num < cfg.max_num)
    (h : (get_guess cfg [] keys).result = some (GuessResult.accepted n)) :
    cfg.min_num ≤ n ∧ n ≤ cfg.max_num :=
  get_guess_accepted_range cfg keys [] h

theorem claim1_witness :
    defaultConfig.min_num ≤ 5 ∧ (5 : Int) ≤ defaultConfig.max_num :=
  claim1_accepted_guess_in_range defaultConfig ['5', '\x0d'] 5
    (by decide) (by decide)

/-- Claim C2 counterexample: from the empty buffer, the keystrokes
'a', 'b', 'c' followed by the carriage-return submit emit no
validation-error feedback at all — the letters are not digits, so the
editor ignores them on entry, the buffer stays empty, and the submit is
the empty-buffer no-op. -/
theorem claim2_counterexample :
    Event.validationError ∉
      (get_guess defaultConfig [] ['a', 'b', 'c', '\x0d']).events ∧
    get_guess defaultConfig [] ['a', 'b', 'c', '\x0d'] =
      ⟨none, [], [], []⟩ := by
  decide

/-- Claim C2 amended: starting from an empty buffer, feeding the editor
'a', 'b', 'c' followed by the submit sentinel leaves it still editing with
an empty buffer and emits no feedback whatsoever (in particular no
validation error): non-digit letters are ignored before they ever reach the
buffer, so the submit is the empty-buffer no-op. -/
theorem claim2_letters_ignored_no_error (cfg : GameConfig) :
    get_guess cfg [] ['a', 'b', 'c', '\x0d'] = ⟨none, [], [], []⟩ :=
  rfl

/-- Claim C3 counterexample: with the default configuration and secret 7, a
round won by guessing 7 and a round that exhausts all three attempts with
wrong guesses return the very same value, the string 'continue' — the
returned outcome does not distinguish a win from exhaustion. -/
theorem claim3_counterexample :
    (play_round defaultConfig 7 ⟨0, 0⟩ ['7', '\x0d']).map Prod.fst =
      some "continue" ∧
    (play_round defaultConfig 7 ⟨0, 0⟩
        ['1', '\x0d', '1', '\x0d', '1', '\x0d']).map Prod.fst =
      some "continue" ∧
    (play_round defaultConfig 7 ⟨0, 0⟩ ['7', '\x0d']).map Prod.fst =
      (play_round defaultConfig 7 ⟨0, 0⟩
        ['1', '\x0d', '1', '\x0d', '1', '\x0d']).map Prod.fst :=
  ⟨rfl, rfl, rfl⟩

/-- Claim C3 amended: a completed round returns one of exactly two string
sentinels — 'quit' precisely when the quit sentinel interrupted the round,
and 'continue' both when the accepted guess equalled the secret and when
the attempt budget ran out; a won round and an exhausted round yield the
same return value. -/
theorem claim3_outcome_strings (cfg : GameConfig) (target : Int)
    (stats : Stats) (keys : List Char) (out : String) (stats' : Stats)
    (evs : List Event) (rest : List Char)
    (h : play_round cfg target stats keys = some (out, stats', evs, rest)) :
    (out = "quit" ∨ out = "continue") ∧
    (out = "quit" ↔ Event.interrupted ∈ evs) :=
  playRoundLoop_outcome cfg target cfg.max_attempts stats keys out stats'
    evs rest h

theorem claim3_witness :
    (("quit" : String) = "quit" ∨ ("quit" : String) = "continue") ∧
    (("quit" : String) = "quit" ↔
      Event.interrupted ∈ [Event.interrupted]) :=
  claim3_outcome_strings defaultConfig 7 ⟨0, 0⟩ ['x'] "quit" ⟨1, 0⟩
    [Event.interrupted] [] (by decide)

/-- Claim C4: whatever a completed round's outcome (win, exhaustion, or
quit, under any keystroke sequence), the games counter increases by exactly
one, and the wins counter increases by one if and only if the round was won
(the win feedback fired), staying unchanged otherwise. -/
theorem claim4_stats_per_round (cfg : GameConfig) (target : Int)
    (stats : Stats) (keys : List Char) (out : String) (stats' : Stats)
    (evs : List Event) (rest : List Char)
    (h : play_round cfg target stats keys = some (out, stats', evs, rest)) :
    stats'.games = stats.games + 1 ∧
    stats'.wins =
      (if Event.soundWin ∈ evs then stats.wins + 1 else stats.wins) :=
  playRoundLoop_stats cfg target cfg.max_attempts stats keys out stats'
    evs rest h

theorem claim4_witness :
    (⟨5, 3⟩ : Stats).games = (⟨4, 2⟩ : Stats).games + 1 ∧
    (⟨5, 3⟩ : Stats).wins =
      (if Event.soundWin ∈ [Event.soundWin] then (⟨4, 2⟩ : Stats).wins + 1
       else (⟨4, 2⟩ : Stats).wins) :=
  claim4_stats_per_round defaultConfig 7 ⟨4, 2⟩ ['7', '\x0d'] "continue"
    ⟨5, 3⟩ [Event.soundWin] [] (by decide)

/-- Claim C5: `get_key` restores the previously saved terminal mode on every
exit path: after entering raw mode, the original settings are reinstated
whether the one-character read returns normally or raises, and the read's
outcome (character or error) is surfaced unchanged. -/
theorem claim5_get_key_restores_mode (m : TermMode)
    (outcome : Except IOErr Char) :
    (get_key outcome m).2 = m ∧ (get_key outcome m).1 = outcome := by
  cases outcome <;> exact ⟨rfl, rfl⟩

/-- Claim C6: when the editor returns a wrong accepted guess `n` in a round
with secret `target`, the hint feedback tagged with direction `n < target`
(true = too low, false = too high) is emitted; the loop then continues with
the attempt counter decremented by one, and when it reaches zero the lose
feedback is emitted right after the hint, before the loop exits with the
'continue' return. -/
theorem claim6_wrong_guess_hint_and_decrement (cfg : GameConfig)
    (target : Int) (a : Nat) (stats : Stats) (keys : List Char) (n : Int)
    (gbuf grest : List Char) (gevs : List Event) (out : String)
    (stats' : Stats) (evs : List Event) (rest : List Char)
    (hg : get_guess cfg [] keys =
      ⟨some (GuessResult.accepted n), gbuf, grest, gevs⟩)
    (hn : n ≠ target)
    (h : playRoundLoop cfg target (a + 1) stats keys =
      some (out, stats', evs, rest)) :
    Event.hint (decide (n < target)) ∈ evs ∧
    (∃ tl, playRoundLoop cfg target a stats grest = some tl ∧
      stats' = tl.2.1 ∧ out = tl.1) ∧
    (a = 0 →
      evs = gevs ++ [Event.hint (decide (n < target)), Event.soundLose] ∧
      out = "continue") := by
  rw [playRoundLoop, hg] at h
  dsimp only at h
  rw [if_neg hn] at h
  cases hrec : playRoundLoop cfg target a stats grest with
  | none => rw [hrec] at h; simp at h
  | some r =>
    rw [hrec] at h
    obtain ⟨ro, rs, revs, rrest⟩ := r
    simp only [Option.map_some', Option.some.injEq, Prod.mk.injEq] at h
    obtain ⟨h1, h2, h3, h4⟩ := h
    subst h1; subst h2; subst h3; subst h4
    refine ⟨by simp, ⟨(ro, rs, revs, rrest), rfl, rfl, rfl⟩, ?_⟩
    intro ha
    subst ha
    rw [playRoundLoop] at hrec
    simp only [Option.some.injEq, Prod.mk.injEq] at hrec
    obtain ⟨hr1, -, hr3, -⟩ := hrec
    constructor
    · rw [← hr3]
      simp
    · exact hr1.symm

theorem claim6_witness :
    Event.hint (decide ((3 : Int) < 7)) ∈
      ([Event.hint true, Event.soundLose] : List Event) ∧
    (∃ tl, playRoundLoop defaultConfig 7 0 ⟨0, 0⟩ [] = some tl ∧
      (⟨1, 0⟩ : Stats) = tl.2.1 ∧ ("continue" : String) = tl.1) ∧
    (0 = 0 →
      ([Event.hint true, Event.soundLose] : List Event) =
        [] ++ [Event.hint (decide ((3 : Int) < 7)), Event.soundLose] ∧
      ("continue" : String) = "continue") :=
  claim6_wrong_guess_hint_and_decrement defaultConfig 7 0 ⟨0, 0⟩
    ['3', '\x0d'] 3 ['3'] [] [] "continue" ⟨1, 0⟩
    [Event.hint true, Event.soundLose] [] (by decide) (by decide)
    (by decide)

/-- Claim C7: for every buffer content (empty or partial) and both cases of
the quit letter, the quit check fires first: the step returns the quit
signal with the interruption message, and a run seeing the quit sentinel
returns the quit signal at once, discarding any partially typed digits. -/
theorem claim7_quit_sentinel_priority (cfg : GameConfig) (buf : List Char)
    (rest : List Char) :
    guessStep cfg buf 'x' =
      EditStep.done GuessResult.quit [Event.interrupted] ∧
    guessStep cfg buf 'X' =
      EditStep.done GuessResult.quit [Event.interrupted] ∧
    (get_guess cfg buf ('x' :: rest)).result = some GuessResult.quit ∧
    (get_guess cfg buf ('X' :: rest)).result = some GuessResult.quit :=
  ⟨rfl, rfl, rfl, rfl⟩

/-- Claim C8: the buffer length never exceeds the decimal digit count of
`max_num`: one editing keystroke preserves the cap, a digit keystroke
arriving exactly at the cap leaves the buffer unchanged (still editing, no
feedback), and a whole run from a capped buffer ends within the cap. -/
theorem claim8_buffer_length_cap (cfg : GameConfig) (buf : List Char)
    (ch : Char) (hb : buf.length ≤ lenCap cfg) :
    (stepBuf cfg buf ch).length ≤ lenCap cfg ∧
    (ch.isDigit = true → buf.length = lenCap cfg →
      guessStep cfg buf ch = EditStep.editing buf []) ∧
    (∀ keys : List Char,
      (get_guess cfg buf keys).buf.length ≤ lenCap cfg) := by
  refine ⟨?_, ?_, ?_⟩
  · unfold stepBuf
    cases hstep : guessStep cfg buf ch with
    | editing b evs => exact guessStep_editing_buf_le hb hstep
    | done r evs => simp
  · intro hd hl
    have h1 : ¬ ch.toLower = 'x' := toLower_ne_x_of_isDigit hd
    have h2 : ¬ ((ch = '\x7f' ∨ ch = '\x08') ∧ buf ≠ []) := by
      rintro ⟨hch | hch, -⟩ <;> subst hch <;> exact absurd hd (by decide)
    have h3 : ¬ ch = '\x0d' := by
      rintro rfl; exact absurd hd (by decide)
    have h4 : ¬ (ch.isDigit ∧ buf.length < lenCap cfg) := by
      rintro ⟨-, hlt⟩; omega
    unfold guessStep
    rw [if_neg h1, if_neg h2, if_neg h3, if_neg h4]
  · intro keys
    exact get_guess_buf_le cfg keys buf hb

theorem claim8_witness :
    (stepBuf defaultConfig ['1', '2'] '5').length ≤ lenCap defaultConfig ∧
    guessStep defaultConfig ['1', '2'] '5' =
      EditStep.editing ['1', '2'] [] ∧
    (get_guess defaultConfig ['1', '2'] ['7', '\x0d']).buf.length ≤
      lenCap defaultConfig := by
  obtain ⟨h1, h2, h3⟩ :=
    claim8_buffer_length_cap defaultConfig ['1', '2'] '5' (by decide)
  exact ⟨h1, h2 (by decide) (by decide), h3 ['7', '\x0d']⟩

/-- Claim C9: submitting with an empty buffer is an idempotent no-op — the
editor stays editing, the buffer stays empty, and no validation or range
error feedback is emitted; likewise a backspace (DEL or BS) keystroke on an
empty buffer leaves state and buffer unchanged. -/
theorem claim9_empty_submit_backspace_noop (cfg : GameConfig) :
    guessStep cfg [] '\x0d' = EditStep.editing [] [] ∧
    guessStep cfg [] '\x7f' = EditStep.editing [] [] ∧
    guessStep cfg [] '\x08' = EditStep.editing [] [] :=
  ⟨rfl, rfl, rfl⟩

/-- Claim C10: when statistics are displayed with `games > 0` a win-rate
line equal to `100 * wins / games` is shown, and when `games = 0` the
win-rate computation is skipped entirely — the output is exactly the
headers, the two counters and the goodbye line, so the division by `games`
is always guarded against a zero divisor. -/
theorem claim10_win_rate_guarded (stats : Stats) :
    (0 < stats.games →
      StatLine.winRate
          ((100 : ℚ) * (stats.wins : ℚ) / (stats.games : ℚ)) ∈
        show_stats stats) ∧
    (stats.games = 0 →
      show_stats stats =
        [StatLine.header, StatLine.gamesPlayed stats.games,
          StatLine.gamesWon stats.wins, StatLine.goodbye]) := by
  constructor
  · intro h
    unfold show_stats
    rw [if_pos h]
    have heq : (stats.wins : ℚ) / (stats.games : ℚ) * 100 =
        (100 : ℚ) * (stats.wins : ℚ) / (stats.games : ℚ) := by ring
    rw [heq]
    simp
  · intro h
    simp [show_stats, h]

theorem claim10_witness :
    StatLine.winRate
        ((100 : ℚ) * (((⟨2, 1⟩ : Stats).wins : ℚ)) /
          (((⟨2, 1⟩ : Stats).games : ℚ))) ∈
      show_stats ⟨2, 1⟩ ∧
    show_stats ⟨0, 5⟩ =
      [StatLine.header, StatLine.gamesPlayed 0, StatLine.gamesWon 5,
        StatLine.goodbye] :=
  ⟨(claim10_win_rate_guarded ⟨2, 1⟩).1 (by decide),
    (claim10_win_rate_guarded ⟨0, 5⟩).2 rfl⟩

end NumberGame
